import Mathlib

/-!
Shallow embedding of the BankStatementOCR / StatementScanner core
(`src/App.tsx`, `src/types.ts`, `src/utils/csv.ts`, `src/services/geminiService.ts`,
`src/components/FileUpload.tsx`) and proofs about it.

Modelling conventions:
* JS strings are `String` (in this toolchain a wrapper around `List Char`).
* JS numbers are `ℚ`: the transaction amounts the app handles are finite
  decimals, which are represented exactly; `Number.prototype.toString` is
  modelled by exact decimal rendering (`jsNumToString`).
* Host builtins (`new Date(...).getTime()`, `JSON.parse`, `String.prototype.trim`,
  regexp replace, `Promise.all`, stable `Array.prototype.sort`) are embedded as
  executable Lean functions reproducing their documented semantics on the
  inputs the app feeds them.
-/

/-- Transaction record, from `src/types.ts`:
`{ date: string; description: string; category: string; amount: number }`. -/
structure Transaction where
  date : String
  description : String
  category : String
  amount : ℚ
deriving DecidableEq

/-- Run status enum, from `src/types.ts` (`FileStatus`). -/
inductive FileStatus where
  | IDLE
  | PROCESSING
  | SUCCESS
  | ERROR
deriving DecidableEq

/-- A browser `File` as the app observes it: name, byte size, MIME type. -/
structure JsFile where
  name : String
  size : Nat
  type : String
deriving DecidableEq

/- ### `src/utils/csv.ts` -/

/-- Characters matched by the regexp class `[\t\n\r]` in `clean`. -/
def isTNR (c : Char) : Bool := c = '\t' || c = '\n' || c = '\r'

/-- `str.replace(/[\t\n\r]+/g, ' ')` on a character list: each maximal run of
tab/newline/carriage-return characters becomes a single space.  The `Bool`
argument records whether the previous character belonged to such a run. -/
def collapseTNRAux : Bool → List Char → List Char
  | _, [] => []
  | inRun, c :: rest =>
    if isTNR c then
      if inRun then collapseTNRAux true rest else ' ' :: collapseTNRAux true rest
    else c :: collapseTNRAux false rest

/-- The ECMAScript WhiteSpace / LineTerminator code points removed by
`String.prototype.trim`. -/
def jsWhitespaceChars : List Char :=
  ['\t', '\n', '\x0b', '\x0c', '\r', ' ', ' ', ' ', ' ', ' ',
   ' ', ' ', ' ', ' ', ' ', ' ', ' ', ' ',
   ' ', ' ', ' ', ' ', ' ', '　', '﻿']

/-- Predicate for `String.prototype.trim`. -/
def jsIsWhitespace (c : Char) : Bool := jsWhitespaceChars.contains c

/-- `String.prototype.trim` on a character list. -/
def jsTrim (l : List Char) : List Char :=
  ((l.dropWhile jsIsWhitespace).reverse.dropWhile jsIsWhitespace).reverse

/-- `clean` from `generateCSV` (src/utils/csv.ts):
`(str) => str.replace(/[\t\n\r]+/g, ' ').trim()`. -/
def clean (s : String) : String :=
  String.mk (jsTrim (collapseTNRAux false s.toList))

/-- Decimal digits of a natural number, most significant first (fuel-indexed;
fuel `n+1` always suffices for `n`). -/
def natDigitsAux : Nat → Nat → List Char
  | 0, _ => []
  | fuel + 1, n =>
    if n < 10 then [Nat.digitChar n]
    else natDigitsAux fuel (n / 10) ++ [Nat.digitChar (n % 10)]

/-- Digits of the fractional expansion of `n / d` (`n < d`), by long division,
stopping when the remainder reaches 0.  Fuel `d` suffices for every fraction
with a terminating decimal expansion (in particular for all dyadic rationals,
i.e. all JS `number` values). -/
def fracDigitsAux : Nat → Nat → Nat → List Char
  | 0, _, _ => []
  | fuel + 1, n, d =>
    if n = 0 then []
    else Nat.digitChar (n * 10 / d) :: fracDigitsAux fuel (n * 10 % d) d

/-- `Number.prototype.toString` for a non-negative amount, as characters:
integer part, then a dot and the fractional digits when the fractional part is
non-zero. -/
def jsNumCharsNonneg (q : ℚ) : List Char :=
  let ipart := q.num.toNat / q.den
  let rem := q.num.toNat % q.den
  let frac := fracDigitsAux q.den rem q.den
  if frac.isEmpty then natDigitsAux (ipart + 1) ipart
  else natDigitsAux (ipart + 1) ipart ++ '.' :: frac

/-- `t.amount.toString()` as characters: `-` sign for negative amounts, no
padding, no separators. -/
def jsNumChars (q : ℚ) : List Char :=
  if q < 0 then '-' :: jsNumCharsNonneg (-q) else jsNumCharsNonneg q

/-- `t.amount.toString()`: canonical decimal rendering. -/
def jsNumToString (q : ℚ) : String := String.mk (jsNumChars q)

/-- `parts.join(sep)` on character lists. -/
def intercalateChar (sep : Char) : List (List Char) → List Char
  | [] => []
  | [x] => x
  | x :: y :: xs => x ++ sep :: intercalateChar sep (y :: xs)

/-- Header cells of `generateCSV`. -/
def csvHeaders : List String := ["Date", "Description", "Category", "Amount"]

/-- The four cells of one data row of `generateCSV`:
`[t.date, clean(t.description), clean(t.category), t.amount.toString()]`. -/
def rowFields (t : Transaction) : List (List Char) :=
  [t.date.toList, (clean t.description).toList, (clean t.category).toList,
   (jsNumToString t.amount).toList]

/-- `generateCSV` from `src/utils/csv.ts`: empty input gives `''`; otherwise a
tab-joined header row followed by one tab-joined row per transaction, rows
joined by `\n`. -/
def generateCSV (ts : List Transaction) : String :=
  if ts.isEmpty then ""
  else
    let headerRow := intercalateChar '\t' (csvHeaders.map String.toList)
    let rows := ts.map fun t => intercalateChar '\t' (rowFields t)
    String.mk (intercalateChar '\n' (headerRow :: rows))

/-- `text.split(sep)` for a single-character separator, on character lists:
`splitOnChar sep [] = [[]]`, matching JS `''.split(sep) = ['']`. -/
def splitOnChar (sep : Char) : List Char → List (List Char)
  | [] => [[]]
  | c :: rest =>
    let r := splitOnChar sep rest
    if c = sep then [] :: r
    else
      match r with
      | [] => [[c]]
      | h :: t => (c :: h) :: t

/- ### Date parsing and sorting (`new Date(a.date).getTime()` in App.tsx) -/

/-- Numeric value of a decimal digit character. -/
def digitVal (c : Char) : Nat := c.toNat - 48

/-- Length of a month in the proleptic Gregorian calendar. -/
def daysInMonth (y m : Nat) : Nat :=
  if m = 2 then (if y % 4 = 0 && (y % 100 ≠ 0 || y % 400 = 0) then 29 else 28)
  else if m = 4 || m = 6 || m = 9 || m = 11 then 30 else 31

/-- Days from the Unix epoch to civil date `y-m-d` (proleptic Gregorian).
The year is shifted by +400 internally so the computation stays in `Nat`;
one 400-year era (146097 days) is subtracted back at the end. -/
def daysFromCivil (y m d : Nat) : Int :=
  let yy := y + 400
  let yAdj := if m ≤ 2 then yy - 1 else yy
  let era := yAdj / 400
  let yoe := yAdj % 400
  let mp := (m + 9) % 12
  let doy := (153 * mp + 2) / 5 + (d - 1)
  let doe := yoe * 365 + yoe / 4 - yoe / 100 + doy
  (era * 146097 + doe : Int) - 719468 - 146097

/-- Strict `YYYY-MM-DD` shape: four digits, dash, two digits, dash, two digits. -/
def parseISODate (s : String) : Option (Nat × Nat × Nat) :=
  match s.toList with
  | [y1, y2, y3, y4, s1, m1, m2, s2, d1, d2] =>
    if y1.isDigit && y2.isDigit && y3.isDigit && y4.isDigit &&
       s1 = '-' && m1.isDigit && m2.isDigit && s2 = '-' && d1.isDigit && d2.isDigit then
      some (digitVal y1 * 1000 + digitVal y2 * 100 + digitVal y3 * 10 + digitVal y4,
            digitVal m1 * 10 + digitVal m2,
            digitVal d1 * 10 + digitVal d2)
    else none
  | _ => none

/-- `new Date(s).getTime()` for a date-only ISO string, in milliseconds since
the epoch (such strings are parsed as UTC midnight).  `none` models `NaN`
(invalid date): a malformed shape, a month outside 1..12, or a day outside the
month.  Engines may additionally parse legacy non-ISO formats; the model
treats only the strict `YYYY-MM-DD` form as valid, and ordering statements
are made only about dates this function parses — a subset on which model and
engine agree. -/
def jsDateMillis (s : String) : Option Int :=
  match parseISODate s with
  | none => none
  | some (y, m, d) =>
    if 1 ≤ m && m ≤ 12 && 1 ≤ d && d ≤ daysInMonth y m then
      some (daysFromCivil y m d * 86400000)
    else none

/-- ES2019 `SortCompare` applied to the comparator in `handleAnalyze`,
`new Date(a.date).getTime() - new Date(b.date).getTime()`.  When either date
is invalid the subtraction yields `NaN`, and `SortCompare` coerces `NaN` to
`+0` — "equal" — for that single comparison, so invalid dates compare equal
to everything.  Such a comparator is inconsistent, and the ECMAScript sort
order of runs containing invalid dates is implementation-defined. -/
def jsDateCompare (a b : Transaction) : Int :=
  match jsDateMillis a.date, jsDateMillis b.date with
  | some x, some y => x - y
  | _, _ => 0

/-- Calendar order on transactions: whenever both dates parse, their epoch
values are non-decreasing.  (Vacuous on unparseable dates.) -/
def dateLE (a b : Transaction) : Prop :=
  ∀ x y : Int, jsDateMillis a.date = some x → jsDateMillis b.date = some y → x ≤ y

/-- One step of the stable sort: `x` is inserted before the first element the
comparator does not place strictly before `x` (so ties — including every
comparison against an invalid date — keep the original relative order). -/
def insertByDate (x : Transaction) : List Transaction → List Transaction
  | [] => [x]
  | y :: l => if jsDateCompare x y ≤ 0 then x :: y :: l else y :: insertByDate x l

/-- `allTransactions.sort((a, b) => new Date(a.date).getTime() - new Date(b.date).getTime())`
(`Array.prototype.sort` is stable per ES2019): modelled as a stable insertion
sort with the `SortCompare`-coerced comparator `jsDateCompare`.  On inputs
whose dates all parse the comparator is consistent and this coincides with
every stable sort; with invalid dates present the engine's order is
implementation-defined and the model commits to one definite outcome, which
reproduces the engine behaviour of leaving "all-equal" runs in place. -/
def sortByDate : List Transaction → List Transaction
  | [] => []
  | x :: l => insertByDate x (sortByDate l)

/- ### `src/App.tsx` (`handleAnalyze`) -/

/-- The React state of `App` that `handleAnalyze` reads and writes. -/
structure AppState where
  files : List JsFile
  status : FileStatus
  transactions : List Transaction
  error : Option String
  processedCount : Nat
deriving DecidableEq

/-- `Promise.all` over the per-file encode+extract outcomes: resolves with the
results in input order when every promise fulfils, otherwise rejects with a
failing promise's reason (the model picks the first in input order; no claim
depends on which one). -/
def collectAll : List (Except String (List Transaction)) →
    Except String (List (List Transaction))
  | [] => .ok []
  | .error e :: _ => .error e
  | .ok r :: rest =>
    match collectAll rest with
    | .ok rs => .ok (r :: rs)
    | .error e => .error e

/-- Number of per-file operations that completed successfully (each one ran
`setProcessedCount(prev => prev + 1)`). -/
def countOk (outcomes : List (Except String (List Transaction))) : Nat :=
  (outcomes.filter fun o => match o with | .ok _ => true | .error _ => false).length

/-- `err.message || "Failed to analyze one or more documents. ..."`: an empty
message string is falsy in JS, so the fallback text is used. -/
def jsErrorMessage (msg : String) : String :=
  if msg.isEmpty then
    "Failed to analyze one or more documents. Please check the files and try again."
  else msg

/-- `handleAnalyze` from `src/App.tsx`, as a transition on the terminal app
state.  `outcomes` lists, in file order, the environment's result for each
file's `convertFileToBase64` + `extractTransactions` pair.  On an empty file
list the handler returns before touching any state.  On success the state
holds the date-sorted flattening of all per-file results; on any failure the
state keeps the empty transaction list installed at the start of the run and
records the error message. -/
def handleAnalyze (s : AppState)
    (outcomes : List (Except String (List Transaction))) : AppState :=
  if s.files.length = 0 then s
  else
    match collectAll outcomes with
    | .ok results =>
      { s with
        status := .SUCCESS
        error := none
        processedCount := s.files.length
        transactions := sortByDate results.flatten }
    | .error e =>
      { s with
        status := .ERROR
        error := some (jsErrorMessage e)
        processedCount := countOk outcomes
        transactions := [] }

/- ### `src/components/FileUpload.tsx` (`handleFiles`) -/

/-- MIME-type allow-list from `handleFiles`. -/
def validTypes : List String :=
  ["image/jpeg", "image/png", "image/webp", "image/heic", "application/pdf"]

/-- `selectedFiles.some(f => f.name === file.name && f.size === file.size)`. -/
def isDuplicate (selectedFiles : List JsFile) (file : JsFile) : Bool :=
  selectedFiles.any fun f => f.name == file.name && f.size == file.size

/-- `handleFiles` from `src/components/FileUpload.tsx`, as a function from the
current `selectedFiles` state and an incoming `FileList` batch to the next
state: keeps batch files with an allow-listed type whose (name, size) pair does
not already occur in the prior state — the duplicate check consults only
`selectedFiles`, not the batch being processed — and appends them. -/
def handleFiles (disabled : Bool) (selectedFiles : List JsFile)
    (fileList : List JsFile) : List JsFile :=
  if disabled then selectedFiles
  else
    let newFiles := fileList.filter fun file =>
      validTypes.contains file.type && !(isDuplicate selectedFiles file)
    selectedFiles ++ newFiles

/- ### `src/services/geminiService.ts` (`extractTransactions`) -/

/-- JSON values as produced by the host `JSON.parse` (object keys already
de-duplicated, numbers exact). -/
inductive Json where
  | null
  | bool (b : Bool)
  | num (q : ℚ)
  | str (s : String)
  | arr (items : List Json)
  | obj (fields : List (String × Json))

/-- Property lookup on a parsed object's field list. -/
def lookupField (fields : List (String × Json)) (key : String) : Option Json :=
  match fields with
  | [] => none
  | (k, v) :: rest => if k = key then some v else lookupField rest key

/-- `data.transactions`: property access on an arbitrary parsed value.  On
`null` it throws a `TypeError` (the exact host message is immaterial); on a
non-object it yields `undefined` (`none`); on an object it looks the key up. -/
def jsGetField : Json → String → Except String (Option Json)
  | .null, key => .error ("TypeError: cannot read properties of null (reading " ++ key ++ ")")
  | .obj fields, key => .ok (lookupField fields key)
  | _, _ => .ok none

/-- JS truthiness of a parsed JSON value (note `[]` and `{}` are truthy). -/
def jsTruthy : Json → Bool
  | .null => false
  | .bool b => b
  | .num q => if q = 0 then false else true
  | .str s => !s.isEmpty
  | .arr _ => true
  | .obj _ => true

/-- The environment's contribution to one `extractTransactions` call, after
the `ai.models.generateContent` round trip: `response.text` was undefined or
empty (falsy), or `JSON.parse(response.text)` threw, or it produced a value. -/
inductive CapResponse where
  | noText
  | unparseable (msg : String)
  | parsed (data : Json)

/-- Response handling of `extractTransactions` (src/services/geminiService.ts):
`if (!responseText) throw new Error("No response received from Gemini.");
const data = JSON.parse(responseText); return data.transactions || [];`
with the `catch` block re-throwing whatever was thrown. -/
def extractTransactions : CapResponse → Except String Json
  | .noText => .error "No response received from Gemini."
  | .unparseable msg => .error msg
  | .parsed data =>
    match jsGetField data "transactions" with
    | .error e => .error e
    | .ok none => .ok (.arr [])
    | .ok (some v) => if jsTruthy v then .ok v else .ok (.arr [])

/-! ### Helper lemmas -/

/-- Every character emitted by the collapse pass is a space or an original
non-TNR character; in particular it is never a tab, newline or CR. -/
theorem not_tnr_of_mem_collapseTNRAux :
    ∀ (b : Bool) (l : List Char) (c : Char), c ∈ collapseTNRAux b l → isTNR c = false := by
  intro b l
  induction l generalizing b with
  | nil => intro c h; simp [collapseTNRAux] at h
  | cons d rest ih =>
    intro c h
    by_cases hd : isTNR d
    · cases b with
      | true =>
        simp [collapseTNRAux, hd] at h
        exact ih true c h
      | false =>
        simp [collapseTNRAux, hd] at h
        rcases h with h | h
        · subst h; decide
        · exact ih true c h
    · simp [collapseTNRAux, hd] at h
      rcases h with h | h
      · subst h; simpa using hd
      · exact ih false c h

/-- Trimming only removes characters. -/
theorem jsTrim_subset (l : List Char) : jsTrim l ⊆ l := by
  intro c hc
  unfold jsTrim at hc
  rw [List.mem_reverse] at hc
  have h1 := (List.dropWhile_sublist _).subset hc
  rw [List.mem_reverse] at h1
  exact (List.dropWhile_sublist _).subset h1

/-- No tab, newline or carriage return survives `clean`. -/
theorem clean_no_tnr (s : String) (c : Char) (hc : c ∈ (clean s).toList) :
    isTNR c = false := by
  have hc' : c ∈ jsTrim (collapseTNRAux false s.toList) := hc
  exact not_tnr_of_mem_collapseTNRAux false _ c (jsTrim_subset _ hc')

/-- `Nat.digitChar` of a value below ten is a decimal digit. -/
theorem digitChar_isDigit {n : Nat} (h : n < 10) : (Nat.digitChar n).isDigit = true := by
  have : ∀ m < 10, (Nat.digitChar m).isDigit = true := by decide
  exact this n h

/-- All characters of the integer-part rendering are digits. -/
theorem natDigitsAux_digits :
    ∀ (fuel n : Nat) (c : Char), c ∈ natDigitsAux fuel n → c.isDigit = true := by
  intro fuel
  induction fuel with
  | zero => intro n c h; simp [natDigitsAux] at h
  | succ f ih =>
    intro n c h
    by_cases hn : n < 10
    · simp only [natDigitsAux, hn, if_true, List.mem_singleton] at h
      subst h; exact digitChar_isDigit hn
    · simp only [natDigitsAux, hn, if_false, List.mem_append, List.mem_singleton] at h
      rcases h with h | h
      · exact ih _ c h
      · subst h; exact digitChar_isDigit (Nat.mod_lt _ (by norm_num))

/-- All characters of the fractional-part rendering are digits. -/
theorem fracDigitsAux_digits :
    ∀ (fuel n d : Nat), n < d →
      ∀ c ∈ fracDigitsAux fuel n d, c.isDigit = true := by
  intro fuel
  induction fuel with
  | zero => intro n d _ c h; simp [fracDigitsAux] at h
  | succ f ih =>
    intro n d hnd c h
    have hd : 0 < d := Nat.lt_of_le_of_lt (Nat.zero_le n) hnd
    by_cases hn : n = 0
    · simp [fracDigitsAux, hn] at h
    · simp only [fracDigitsAux, hn, if_false, List.mem_cons] at h
      rcases h with h | h
      · subst h
        refine digitChar_isDigit ?_
        have : n * 10 < 10 * d := by
          calc n * 10 = 10 * n := by ring
          _ < 10 * d := by omega
        exact (Nat.div_lt_iff_lt_mul hd).mpr this
      · exact ih (n * 10 % d) d (Nat.mod_lt _ hd) c h

/-- Characters of the non-negative rendering: digits and at most one dot. -/
theorem jsNumCharsNonneg_chars (q : ℚ) (c : Char) (hc : c ∈ jsNumCharsNonneg q) :
    c.isDigit = true ∨ c = '.' := by
  unfold jsNumCharsNonneg at hc
  by_cases hfr : (fracDigitsAux q.den (q.num.toNat % q.den) q.den).isEmpty
  · simp only [hfr, if_true] at hc
    exact Or.inl (natDigitsAux_digits _ _ c hc)
  · simp only [hfr, if_false, Bool.false_eq_true, List.mem_append, List.mem_cons] at hc
    rcases hc with hc | hc | hc
    · exact Or.inl (natDigitsAux_digits _ _ c hc)
    · exact Or.inr hc
    · exact Or.inl (fracDigitsAux_digits _ _ _ (Nat.mod_lt _ q.den_pos) c hc)

/-- Characters of the amount rendering: digits, a dot, or a leading minus. -/
theorem jsNumChars_chars (q : ℚ) (c : Char) (hc : c ∈ jsNumChars q) :
    c.isDigit = true ∨ c = '-' ∨ c = '.' := by
  unfold jsNumChars at hc
  by_cases hq : q < 0
  · simp only [hq, if_true, List.mem_cons] at hc
    rcases hc with hc | hc
    · exact Or.inr (Or.inl hc)
    · rcases jsNumCharsNonneg_chars _ c hc with h | h
      · exact Or.inl h
      · exact Or.inr (Or.inr h)
  · simp only [hq, if_false, Bool.false_eq_true] at hc
    rcases jsNumCharsNonneg_chars _ c hc with h | h
    · exact Or.inl h
    · exact Or.inr (Or.inr h)

/-- Splitting a separator-free list yields that single piece. -/
theorem splitOnChar_of_not_mem (sep : Char) :
    ∀ (l : List Char), (∀ c ∈ l, c ≠ sep) → splitOnChar sep l = [l] := by
  intro l
  induction l with
  | nil => intro _; rfl
  | cons c rest ih =>
    intro h
    have hc : c ≠ sep := h c (by simp)
    have hr := ih (fun x hx => h x (by simp [hx]))
    simp [splitOnChar, hc, hr]

/-- Splitting distributes over the first separator occurrence. -/
theorem splitOnChar_append (sep : Char) :
    ∀ (l1 l2 : List Char), (∀ c ∈ l1, c ≠ sep) →
      splitOnChar sep (l1 ++ sep :: l2) = l1 :: splitOnChar sep l2 := by
  intro l1
  induction l1 with
  | nil => intro l2 _; simp [splitOnChar]
  | cons c rest ih =>
    intro l2 h
    have hc : c ≠ sep := h c (by simp)
    have hr := ih l2 (fun x hx => h x (by simp [hx]))
    simp [splitOnChar, hc, hr]

/-- Splitting a separator-joined list of separator-free pieces recovers the
pieces. -/
theorem splitOnChar_intercalate (sep : Char) :
    ∀ (rows : List (List Char)), rows ≠ [] →
      (∀ r ∈ rows, ∀ c ∈ r, c ≠ sep) →
      splitOnChar sep (intercalateChar sep rows) = rows := by
  intro rows
  induction rows with
  | nil => intro h _; exact absurd rfl h
  | cons r rest ih =>
    intro _ hfree
    cases rest with
    | nil =>
      simpa [intercalateChar] using splitOnChar_of_not_mem sep r (hfree r (by simp))
    | cons r2 rest2 =>
      have hstep : intercalateChar sep (r :: r2 :: rest2)
          = r ++ sep :: intercalateChar sep (r2 :: rest2) := rfl
      rw [hstep, splitOnChar_append sep r _ (hfree r (by simp)),
        ih (by simp) (fun x hx c hc => hfree x (by simp [hx]) c hc)]

/-- Every character of a join is the separator or comes from some piece. -/
theorem mem_intercalateChar (sep : Char) :
    ∀ (rows : List (List Char)) (c : Char), c ∈ intercalateChar sep rows →
      c = sep ∨ ∃ r ∈ rows, c ∈ r := by
  intro rows
  induction rows with
  | nil => intro c h; simp [intercalateChar] at h
  | cons r rest ih =>
    intro c h
    cases rest with
    | nil =>
      simp only [intercalateChar] at h
      exact Or.inr ⟨r, by simp, h⟩
    | cons r2 rest2 =>
      have hstep : intercalateChar sep (r :: r2 :: rest2)
          = r ++ sep :: intercalateChar sep (r2 :: rest2) := rfl
      rw [hstep] at h
      rcases List.mem_append.mp h with h | h
      · exact Or.inr ⟨r, by simp, h⟩
      · rcases List.mem_cons.mp h with h | h
        · exact Or.inl h
        · rcases ih c h with h | ⟨r3, hr3, hc3⟩
          · exact Or.inl h
          · exact Or.inr ⟨r3, by simp [hr3], hc3⟩

/-- The comparator decides calendar order when both dates parse. -/
theorem jsDateCompare_le_iff {a b : Transaction} {x y : Int}
    (ha : jsDateMillis a.date = some x) (hb : jsDateMillis b.date = some y) :
    jsDateCompare a b ≤ 0 ↔ x ≤ y := by
  unfold jsDateCompare
  rw [ha, hb]
  show x - y ≤ 0 ↔ x ≤ y
  omega

/-- `dateLE` from known parses and an epoch comparison. -/
theorem dateLE_of_millis {a b : Transaction} {x y : Int}
    (ha : jsDateMillis a.date = some x) (hb : jsDateMillis b.date = some y)
    (h : x ≤ y) : dateLE a b := by
  intro u v hu hv
  rw [ha] at hu
  rw [hb] at hv
  cases hu
  cases hv
  exact h

/-- Membership in a date-ordered insertion. -/
theorem mem_insertByDate (x a : Transaction) :
    ∀ (l : List Transaction), a ∈ insertByDate x l ↔ a = x ∨ a ∈ l := by
  intro l
  induction l with
  | nil => simp [insertByDate]
  | cons y rest ih =>
    by_cases hle : jsDateCompare x y ≤ 0
    · simp [insertByDate, hle]
    · simp only [insertByDate, hle, if_false, List.mem_cons, ih]
      tauto

/-- Membership in the sort output. -/
theorem mem_sortByDate (a : Transaction) :
    ∀ (l : List Transaction), a ∈ sortByDate l ↔ a ∈ l := by
  intro l
  induction l with
  | nil => simp [sortByDate]
  | cons x rest ih => simp [sortByDate, mem_insertByDate, ih]

/-- Insertion adds one element. -/
theorem length_insertByDate (x : Transaction) :
    ∀ (l : List Transaction), (insertByDate x l).length = l.length + 1 := by
  intro l
  induction l with
  | nil => rfl
  | cons y rest ih =>
    by_cases hle : jsDateCompare x y ≤ 0
    · simp [insertByDate, hle]
    · simp [insertByDate, hle, ih]

/-- The sort preserves length. -/
theorem length_sortByDate :
    ∀ (l : List Transaction), (sortByDate l).length = l.length := by
  intro l
  induction l with
  | nil => rfl
  | cons x rest ih => simp [sortByDate, length_insertByDate, ih]

/-- Insertion preserves sortedness by calendar value, provided the inserted
element and the list have parseable dates (with an unparseable date the
comparator is inconsistent and no such guarantee exists). -/
theorem pairwise_insertByDate (x : Transaction) :
    ∀ (l : List Transaction),
      (jsDateMillis x.date).isSome = true →
      (∀ t ∈ l, (jsDateMillis t.date).isSome = true) →
      l.Pairwise dateLE → (insertByDate x l).Pairwise dateLE := by
  intro l
  induction l with
  | nil => intro _ _ _; simp [insertByDate]
  | cons y rest ih =>
    intro hx hl hp
    obtain ⟨mx, hmx⟩ := Option.isSome_iff_exists.mp hx
    obtain ⟨my, hmy⟩ := Option.isSome_iff_exists.mp (hl y (by simp))
    rcases List.pairwise_cons.mp hp with ⟨hy, hrest⟩
    by_cases hle : jsDateCompare x y ≤ 0
    · have hxy : mx ≤ my := (jsDateCompare_le_iff hmx hmy).mp hle
      have hins : insertByDate x (y :: rest) = x :: y :: rest := by
        simp [insertByDate, hle]
      rw [hins]
      refine List.pairwise_cons.mpr ⟨?_, hp⟩
      intro z hz
      rcases List.mem_cons.mp hz with hz | hz
      · subst hz
        exact dateLE_of_millis hmx hmy hxy
      · obtain ⟨mz, hmz⟩ := Option.isSome_iff_exists.mp (hl z (by simp [hz]))
        exact dateLE_of_millis hmx hmz (le_trans hxy (hy z hz my mz hmy hmz))
    · have hyx : my ≤ mx := by
        have hnot : ¬ mx ≤ my := fun h => hle ((jsDateCompare_le_iff hmx hmy).mpr h)
        omega
      have hins : insertByDate x (y :: rest) = y :: insertByDate x rest := by
        simp [insertByDate, hle]
      rw [hins]
      refine List.pairwise_cons.mpr
        ⟨?_, ih hx (fun t ht => hl t (by simp [ht])) hrest⟩
      intro z hz
      rcases (mem_insertByDate x z rest).mp hz with hz | hz
      · subst hz
        exact dateLE_of_millis hmy hmx hyx
      · exact hy z hz

/-- With all dates parseable, the sort output is sorted by calendar value. -/
theorem pairwise_sortByDate :
    ∀ (l : List Transaction),
      (∀ t ∈ l, (jsDateMillis t.date).isSome = true) →
      (sortByDate l).Pairwise dateLE := by
  intro l
  induction l with
  | nil => intro _; simp [sortByDate]
  | cons x rest ih =>
    intro hl
    have hx : (jsDateMillis x.date).isSome = true := hl x (by simp)
    have hrest : ∀ t ∈ rest, (jsDateMillis t.date).isSome = true :=
      fun t ht => hl t (by simp [ht])
    have hsv : ∀ t ∈ sortByDate rest, (jsDateMillis t.date).isSome = true :=
      fun t ht => hrest t ((mem_sortByDate t rest).mp ht)
    exact pairwise_insertByDate x (sortByDate rest) hx hsv (ih hrest)

/-- Stability, one step (under parseable dates): inserting `x` prepends it to
its own calendar-date class and leaves every class otherwise untouched. -/
theorem filter_insertByDate (x : Transaction) (k : Int) :
    ∀ (l : List Transaction),
      (jsDateMillis x.date).isSome = true →
      (∀ t ∈ l, (jsDateMillis t.date).isSome = true) →
      (insertByDate x l).filter (fun t => jsDateMillis t.date = some k)
        = if jsDateMillis x.date = some k
          then x :: l.filter (fun t => jsDateMillis t.date = some k)
          else l.filter (fun t => jsDateMillis t.date = some k) := by
  intro l
  induction l with
  | nil =>
    intro _ _
    by_cases hk : jsDateMillis x.date = some k <;> simp [insertByDate, hk]
  | cons y rest ih =>
    intro hx hl
    obtain ⟨mx, hmx⟩ := Option.isSome_iff_exists.mp hx
    obtain ⟨my, hmy⟩ := Option.isSome_iff_exists.mp (hl y (by simp))
    have ihr := ih hx (fun t ht => hl t (by simp [ht]))
    by_cases hle : jsDateCompare x y ≤ 0
    · have hins : insertByDate x (y :: rest) = x :: y :: rest := by
        simp [insertByDate, hle]
      rw [hins]
      by_cases hk : jsDateMillis x.date = some k <;>
        by_cases hy : jsDateMillis y.date = some k <;>
          simp [List.filter_cons, hk, hy]
    · have hins : insertByDate x (y :: rest) = y :: insertByDate x rest := by
        simp [insertByDate, hle]
      rw [hins]
      have hyx : my < mx := by
        have hnot : ¬ mx ≤ my := fun h => hle ((jsDateCompare_le_iff hmx hmy).mpr h)
        omega
      by_cases hk : jsDateMillis x.date = some k
      · have hxk : mx = k := by
          rw [hmx] at hk
          exact Option.some.inj hk
        have hy : ¬ jsDateMillis y.date = some k := by
          rw [hmy]
          intro hcon
          have hyk : my = k := Option.some.inj hcon
          omega
        simp [List.filter_cons, hy, ihr, hk]
      · by_cases hy : jsDateMillis y.date = some k <;>
          simp [List.filter_cons, hy, ihr, hk]

/-- Stability of the sort (under parseable dates): each calendar-date class
appears in the output exactly as it appears in the input. -/
theorem filter_sortByDate (k : Int) :
    ∀ (l : List Transaction),
      (∀ t ∈ l, (jsDateMillis t.date).isSome = true) →
      (sortByDate l).filter (fun t => jsDateMillis t.date = some k)
        = l.filter (fun t => jsDateMillis t.date = some k) := by
  intro l
  induction l with
  | nil => intro _; rfl
  | cons x rest ih =>
    intro hl
    have hx : (jsDateMillis x.date).isSome = true := hl x (by simp)
    have hrest : ∀ t ∈ rest, (jsDateMillis t.date).isSome = true :=
      fun t ht => hl t (by simp [ht])
    have hsv : ∀ t ∈ sortByDate rest, (jsDateMillis t.date).isSome = true :=
      fun t ht => hrest t ((mem_sortByDate t rest).mp ht)
    have hstep : sortByDate (x :: rest) = insertByDate x (sortByDate rest) := rfl
    rw [hstep, filter_insertByDate x k (sortByDate rest) hx hsv, ih hrest]
    by_cases hk : jsDateMillis x.date = some k <;> simp [List.filter_cons, hk]

/-- `handleAnalyze` on a non-empty file list with all per-file operations
successful: the success state, written out. -/
theorem handleAnalyze_ok (s : AppState) (outcomes : List (Except String (List Transaction)))
    (results : List (List Transaction))
    (hne : s.files ≠ []) (hok : collectAll outcomes = .ok results) :
    handleAnalyze s outcomes
      = { s with
          status := .SUCCESS
          error := none
          processedCount := s.files.length
          transactions := sortByDate results.flatten } := by
  have hlen : ¬ s.files.length = 0 := by
    simpa [List.length_eq_zero] using hne
  simp [handleAnalyze, hlen, hok]

/-- `handleAnalyze` on a non-empty file list with a failing per-file
operation: the error state, written out. -/
theorem handleAnalyze_err (s : AppState) (outcomes : List (Except String (List Transaction)))
    (e : String)
    (hne : s.files ≠ []) (herr : collectAll outcomes = .error e) :
    handleAnalyze s outcomes
      = { s with
          status := .ERROR
          error := some (jsErrorMessage e)
          processedCount := countOk outcomes
          transactions := [] } := by
  have hlen : ¬ s.files.length = 0 := by
    simpa [List.length_eq_zero] using hne
  simp [handleAnalyze, hlen, herr]

/-- If some per-file operation failed, the aggregation rejects. -/
theorem collectAll_error_of_mem :
    ∀ (outcomes : List (Except String (List Transaction))) (msg : String),
      Except.error msg ∈ outcomes → ∃ e, collectAll outcomes = Except.error e := by
  intro outcomes msg h
  induction outcomes with
  | nil => simp at h
  | cons o rest ih =>
    cases o with
    | error e => exact ⟨e, rfl⟩
    | ok r =>
      have hmem : Except.error msg ∈ rest := by
        rcases List.mem_cons.mp h with h | h
        · exact absurd h (by simp)
        · exact h
      rcases ih hmem with ⟨e, he⟩
      exact ⟨e, by simp [collectAll, he]⟩

/-- The character-list view of `generateCSV` on a non-empty input. -/
theorem generateCSV_toList (ts : List Transaction) (hne : ts ≠ []) :
    (generateCSV ts).toList
      = intercalateChar '\n'
          (intercalateChar '\t' (csvHeaders.map String.toList)
            :: ts.map fun t => intercalateChar '\t' (rowFields t)) := by
  have hempty : ts.isEmpty = false := List.isEmpty_eq_false.mpr hne
  simp [generateCSV, hempty]

/-- A digit, minus or dot character is not a tab or a newline. -/
theorem not_sep_of_numchar {c : Char} (h : c.isDigit = true ∨ c = '-' ∨ c = '.') :
    c ≠ '\t' ∧ c ≠ '\n' := by
  rcases h with h | h | h
  · constructor <;> rintro rfl <;> simp at h
  · subst h; exact ⟨by decide, by decide⟩
  · subst h; exact ⟨by decide, by decide⟩

/-- A character surviving `clean` is not a tab or a newline. -/
theorem not_sep_of_clean {s : String} {c : Char} (h : c ∈ (clean s).toList) :
    c ≠ '\t' ∧ c ≠ '\n' := by
  have := clean_no_tnr s c h
  simp [isTNR] at this
  exact ⟨this.1.1, this.1.2⟩

/-- With a delimiter-free date, no cell of a data row contains a tab or a
newline. -/
theorem rowFields_sep_free (t : Transaction)
    (hdate : ∀ c ∈ t.date.toList, c ≠ '\t' ∧ c ≠ '\n') :
    ∀ f ∈ rowFields t, ∀ c ∈ f, c ≠ '\t' ∧ c ≠ '\n' := by
  intro f hf c hc
  simp only [rowFields, List.mem_cons, List.not_mem_nil, or_false] at hf
  rcases hf with hf | hf | hf | hf
  · subst hf; exact hdate c hc
  · subst hf; exact not_sep_of_clean hc
  · subst hf; exact not_sep_of_clean hc
  · subst hf
    exact not_sep_of_numchar (jsNumChars_chars t.amount c hc)

/-- With a delimiter-free date, a joined data row contains no newline. -/
theorem row_newline_free (t : Transaction)
    (hdate : ∀ c ∈ t.date.toList, c ≠ '\t' ∧ c ≠ '\n') :
    ∀ c ∈ intercalateChar '\t' (rowFields t), c ≠ '\n' := by
  intro c hc
  rcases mem_intercalateChar '\t' (rowFields t) c hc with h | ⟨f, hf, hcf⟩
  · subst h; decide
  · exact (rowFields_sep_free t hdate f hf c hcf).2

/-- The header row contains no newline. -/
theorem header_newline_free :
    ∀ c ∈ intercalateChar '\t' (csvHeaders.map String.toList), c ≠ '\n' := by
  decide

/-! ### Claim theorems -/

/-- C1 counterexample: a run that completes successfully although extraction
(unvalidated, cf. C3) returned a transaction with an unparseable date between
two valid ones.  Every comparison against the invalid date yields NaN, which
`SortCompare` treats as "equal", so the sort leaves the run in place: the
final state is SUCCESS but `2024-05-01` remains ordered before `1970-01-02` —
the sequence is not sorted non-decreasingly by calendar value. -/
theorem handleAnalyze_invalid_date_cex :
    (handleAnalyze
        ⟨[⟨"a.pdf", 1, "application/pdf"⟩], .IDLE, [], none, 0⟩
        [.ok [⟨"2024-05-01", "d1", "c1", (1 : ℚ)⟩,
              ⟨"garbage", "d2", "c2", (1 : ℚ)⟩,
              ⟨"1970-01-02", "d3", "c3", (1 : ℚ)⟩]]).status
      = FileStatus.SUCCESS ∧
    (handleAnalyze
        ⟨[⟨"a.pdf", 1, "application/pdf"⟩], .IDLE, [], none, 0⟩
        [.ok [⟨"2024-05-01", "d1", "c1", (1 : ℚ)⟩,
              ⟨"garbage", "d2", "c2", (1 : ℚ)⟩,
              ⟨"1970-01-02", "d3", "c3", (1 : ℚ)⟩]]).transactions
      = [⟨"2024-05-01", "d1", "c1", (1 : ℚ)⟩,
         ⟨"garbage", "d2", "c2", (1 : ℚ)⟩,
         ⟨"1970-01-02", "d3", "c3", (1 : ℚ)⟩] ∧
    ¬ ((handleAnalyze
          ⟨[⟨"a.pdf", 1, "application/pdf"⟩], .IDLE, [], none, 0⟩
          [.ok [⟨"2024-05-01", "d1", "c1", (1 : ℚ)⟩,
                ⟨"garbage", "d2", "c2", (1 : ℚ)⟩,
                ⟨"1970-01-02", "d3", "c3", (1 : ℚ)⟩]]).transactions.Pairwise
        dateLE) := by
  refine ⟨by decide, by decide, ?_⟩
  intro hp
  have heq : (handleAnalyze
        ⟨[⟨"a.pdf", 1, "application/pdf"⟩], .IDLE, [], none, 0⟩
        [.ok [⟨"2024-05-01", "d1", "c1", (1 : ℚ)⟩,
              ⟨"garbage", "d2", "c2", (1 : ℚ)⟩,
              ⟨"1970-01-02", "d3", "c3", (1 : ℚ)⟩]]).transactions
      = [⟨"2024-05-01", "d1", "c1", (1 : ℚ)⟩,
         ⟨"garbage", "d2", "c2", (1 : ℚ)⟩,
         ⟨"1970-01-02", "d3", "c3", (1 : ℚ)⟩] := by decide
  rw [heq] at hp
  have h13 := (List.pairwise_cons.mp hp).1
    ⟨"1970-01-02", "d3", "c3", (1 : ℚ)⟩ (by decide)
  have hle := h13 1714521600000 86400000 (by decide) (by decide)
  omega

/-- C1 amended: for every successfully completed run in which every extracted
transaction's date parses as a valid calendar date, the sequence produced by
`handleAnalyze` is sorted non-decreasingly by the calendar value of the date
field (`jsDateMillis`, not lexical string order), the sort is stable (each
calendar-date class appears in the output exactly as it appears, in order, in
the merged input), and the total number of transactions equals the sum of the
per-file extraction counts.  The validity hypothesis is forced: with an
unparseable date present, every comparison against it is NaN — "equal" — so
the comparator is inconsistent and valid dates can stay mis-ordered around it
(see the counterexample). -/
theorem handleAnalyze_success_sorted_stable_count
    (s : AppState) (outcomes : List (Except String (List Transaction)))
    (results : List (List Transaction))
    (hne : s.files ≠ []) (hok : collectAll outcomes = .ok results)
    (hvalid : ∀ t ∈ results.flatten, (jsDateMillis t.date).isSome = true) :
    (handleAnalyze s outcomes).status = FileStatus.SUCCESS ∧
    (handleAnalyze s outcomes).transactions.Pairwise dateLE ∧
    (∀ k : Int,
      (handleAnalyze s outcomes).transactions.filter
          (fun t => jsDateMillis t.date = some k)
        = results.flatten.filter (fun t => jsDateMillis t.date = some k)) ∧
    (handleAnalyze s outcomes).transactions.length
      = (results.map List.length).sum := by
  rw [handleAnalyze_ok s outcomes results hne hok]
  refine ⟨rfl, ?_, ?_, ?_⟩
  · exact pairwise_sortByDate results.flatten hvalid
  · intro k; exact filter_sortByDate k results.flatten hvalid
  · rw [length_sortByDate, List.length_flatten]

/-- C1 amended witness: the spec's two-file scenario (all dates valid), run
concretely. -/
theorem handleAnalyze_success_sorted_stable_count_witness :
    (handleAnalyze
        ⟨[⟨"a.pdf", 1, "application/pdf"⟩, ⟨"b.pdf", 2, "application/pdf"⟩],
         .IDLE, [], none, 0⟩
        [.ok [⟨"2024-03-05", "Coffee Shop", "Dining", mkRat (-45) 10⟩],
         .ok [⟨"2024-01-10", "Employer Inc", "Salary", (2500 : ℚ)⟩]]).status
      = FileStatus.SUCCESS ∧
    (handleAnalyze
        ⟨[⟨"a.pdf", 1, "application/pdf"⟩, ⟨"b.pdf", 2, "application/pdf"⟩],
         .IDLE, [], none, 0⟩
        [.ok [⟨"2024-03-05", "Coffee Shop", "Dining", mkRat (-45) 10⟩],
         .ok [⟨"2024-01-10", "Employer Inc", "Salary", (2500 : ℚ)⟩]]).transactions.filter
        (fun t => jsDateMillis t.date = some 1704844800000)
      = ([[⟨"2024-03-05", "Coffee Shop", "Dining", mkRat (-45) 10⟩],
          [⟨"2024-01-10", "Employer Inc", "Salary", (2500 : ℚ)⟩]] :
            List (List Transaction)).flatten.filter
        (fun t => jsDateMillis t.date = some 1704844800000) ∧
    (handleAnalyze
        ⟨[⟨"a.pdf", 1, "application/pdf"⟩, ⟨"b.pdf", 2, "application/pdf"⟩],
         .IDLE, [], none, 0⟩
        [.ok [⟨"2024-03-05", "Coffee Shop", "Dining", mkRat (-45) 10⟩],
         .ok [⟨"2024-01-10", "Employer Inc", "Salary", (2500 : ℚ)⟩]]).transactions.length
      = (([[⟨"2024-03-05", "Coffee Shop", "Dining", mkRat (-45) 10⟩],
           [⟨"2024-01-10", "Employer Inc", "Salary", (2500 : ℚ)⟩]] :
             List (List Transaction)).map List.length).sum :=
by
  have h := handleAnalyze_success_sorted_stable_count
    ⟨[⟨"a.pdf", 1, "application/pdf"⟩, ⟨"b.pdf", 2, "application/pdf"⟩],
     .IDLE, [], none, 0⟩
    [.ok [⟨"2024-03-05", "Coffee Shop", "Dining", mkRat (-45) 10⟩],
     .ok [⟨"2024-01-10", "Employer Inc", "Salary", (2500 : ℚ)⟩]]
    [[⟨"2024-03-05", "Coffee Shop", "Dining", mkRat (-45) 10⟩],
     [⟨"2024-01-10", "Employer Inc", "Salary", (2500 : ℚ)⟩]]
    (by decide) rfl (by decide)
  exact ⟨h.1, h.2.2.1 1704844800000, h.2.2.2⟩

/-- C2: whenever at least one per-file encode-or-extract operation fails,
`handleAnalyze` reaches terminal status Error (never Success), records an
error message, and the transaction state is the empty list — nothing from the
files that succeeded is retained or surfaced. -/
theorem handleAnalyze_failure_discards
    (s : AppState) (outcomes : List (Except String (List Transaction)))
    (msg : String)
    (hne : s.files ≠ []) (hmem : Except.error msg ∈ outcomes) :
    (handleAnalyze s outcomes).status = FileStatus.ERROR ∧
    (handleAnalyze s outcomes).status ≠ FileStatus.SUCCESS ∧
    (handleAnalyze s outcomes).transactions = [] ∧
    (handleAnalyze s outcomes).error.isSome = true := by
  rcases collectAll_error_of_mem outcomes msg hmem with ⟨e, he⟩
  rw [handleAnalyze_err s outcomes e hne he]
  exact ⟨rfl, fun hcon => FileStatus.noConfusion hcon, rfl, rfl⟩

/-- C2 witness: one file succeeds, one fails; the run errors out empty. -/
theorem handleAnalyze_failure_discards_witness :
    (handleAnalyze
        ⟨[⟨"a.pdf", 1, "application/pdf"⟩, ⟨"b.pdf", 2, "application/pdf"⟩],
         .IDLE, [], none, 0⟩
        [.ok [⟨"2024-03-05", "Coffee Shop", "Dining", (3 : ℚ)⟩],
         .error "extraction failed"]).status
      = FileStatus.ERROR ∧
    (handleAnalyze
        ⟨[⟨"a.pdf", 1, "application/pdf"⟩, ⟨"b.pdf", 2, "application/pdf"⟩],
         .IDLE, [], none, 0⟩
        [.ok [⟨"2024-03-05", "Coffee Shop", "Dining", (3 : ℚ)⟩],
         .error "extraction failed"]).status
      ≠ FileStatus.SUCCESS ∧
    (handleAnalyze
        ⟨[⟨"a.pdf", 1, "application/pdf"⟩, ⟨"b.pdf", 2, "application/pdf"⟩],
         .IDLE, [], none, 0⟩
        [.ok [⟨"2024-03-05", "Coffee Shop", "Dining", (3 : ℚ)⟩],
         .error "extraction failed"]).transactions
      = [] ∧
    (handleAnalyze
        ⟨[⟨"a.pdf", 1, "application/pdf"⟩, ⟨"b.pdf", 2, "application/pdf"⟩],
         .IDLE, [], none, 0⟩
        [.ok [⟨"2024-03-05", "Coffee Shop", "Dining", (3 : ℚ)⟩],
         .error "extraction failed"]).error.isSome
      = true :=
by
  have h := handleAnalyze_failure_discards
    ⟨[⟨"a.pdf", 1, "application/pdf"⟩, ⟨"b.pdf", 2, "application/pdf"⟩],
     .IDLE, [], none, 0⟩
    [.ok [⟨"2024-03-05", "Coffee Shop", "Dining", (3 : ℚ)⟩],
     .error "extraction failed"]
    "extraction failed" (by decide) (by simp)
  exact h

/-- C9: `generateCSV` applied to the empty transaction sequence returns
exactly the empty string, not a header-only string. -/
theorem generateCSV_empty : generateCSV [] = "" := rfl

/-- C10: invoking a run on an empty file list is a no-op at the public
interface: `handleAnalyze` returns the state unchanged — same terminal
status, transaction sequence, error message and progress counter — for every
possible environment behaviour, i.e. without consuming any encode or extract
outcome. -/
theorem handleAnalyze_empty_files_noop
    (s : AppState) (outcomes : List (Except String (List Transaction)))
    (h : s.files = []) : handleAnalyze s outcomes = s := by
  simp [handleAnalyze, h]

/-- C10 witness: an idle state with no files is returned verbatim. -/
theorem handleAnalyze_empty_files_noop_witness :
    handleAnalyze ⟨[], .IDLE, [], none, 0⟩ [.error "unused"]
      = ⟨[], .IDLE, [], none, 0⟩ :=
  handleAnalyze_empty_files_noop _ _ rfl

/-- C3 counterexample: the parsed response holds one item missing the
`amount` field, and `extractTransactions` returns it unchanged instead of
rejecting it — there is no re-validation of field presence before the records
are handed to the caller. -/
theorem extractTransactions_missing_field_cex :
    extractTransactions (CapResponse.parsed (Json.obj
        [("transactions", Json.arr [Json.obj
          [("date", Json.str "2024-01-10"),
           ("description", Json.str "Coffee Shop"),
           ("category", Json.str "Dining")]])]))
      = Except.ok (Json.arr [Json.obj
          [("date", Json.str "2024-01-10"),
           ("description", Json.str "Coffee Shop"),
           ("category", Json.str "Dining")]]) ∧
    lookupField
        [("date", Json.str "2024-01-10"),
         ("description", Json.str "Coffee Shop"),
         ("category", Json.str "Dining")] "amount" = none :=
  ⟨rfl, rfl⟩

/-- C3 amended: `extractTransactions` performs no per-record validation:
whatever array the parsed response carries under `transactions` is returned
verbatim — items missing fields included — so four-field completeness of the
result holds only insofar as the capability's schema enforcement provided it. -/
theorem extractTransactions_passthrough
    (fields : List (String × Json)) (items : List Json)
    (h : lookupField fields "transactions" = some (Json.arr items)) :
    extractTransactions (CapResponse.parsed (Json.obj fields))
      = Except.ok (Json.arr items) := by
  simp [extractTransactions, jsGetField, h, jsTruthy]

/-- C3 amended witness: a concrete one-item array is passed through. -/
theorem extractTransactions_passthrough_witness :
    extractTransactions (CapResponse.parsed (Json.obj
        [("transactions", Json.arr [Json.str "not even an object"])]))
      = Except.ok (Json.arr [Json.str "not even an object"]) :=
  extractTransactions_passthrough
    [("transactions", Json.arr [Json.str "not even an object"])]
    [Json.str "not even an object"] rfl

/-- C4 counterexample: a response that parses as valid JSON but is not
schema-conformant — an object with no `transactions` key — is not rejected:
`extractTransactions` silently returns an empty successful result instead of
failing. -/
theorem extractTransactions_silent_empty_cex :
    extractTransactions (CapResponse.parsed (Json.obj []))
      = Except.ok (Json.arr []) := rfl

/-- C4 amended: `extractTransactions` fails with a surfaced error when the
response text is missing or empty, when the text does not parse as JSON, and
when it parses to `null` (the `transactions` property access throws); schema
conformance is not otherwise checked: a parsed object without a `transactions`
key silently yields an empty successful result, and a present `transactions`
array is returned as-is (an explicitly empty one yields an empty success). -/
theorem extractTransactions_error_behaviour :
    extractTransactions CapResponse.noText
        = Except.error "No response received from Gemini." ∧
    (∀ msg, extractTransactions (CapResponse.unparseable msg)
        = Except.error msg) ∧
    (∃ e, extractTransactions (CapResponse.parsed Json.null)
        = Except.error e) ∧
    (∀ fields, lookupField fields "transactions" = none →
        extractTransactions (CapResponse.parsed (Json.obj fields))
          = Except.ok (Json.arr [])) ∧
    (∀ fields items,
        lookupField fields "transactions" = some (Json.arr items) →
        extractTransactions (CapResponse.parsed (Json.obj fields))
          = Except.ok (Json.arr items)) := by
  refine ⟨rfl, fun msg => rfl, ⟨_, rfl⟩, ?_, ?_⟩
  · intro fields h
    simp [extractTransactions, jsGetField, h]
  · intro fields items h
    simp [extractTransactions, jsGetField, h, jsTruthy]

/-- C4 amended witness: a parse failure is surfaced, and an explicitly empty
`transactions` array is an empty success. -/
theorem extractTransactions_error_behaviour_witness :
    extractTransactions (CapResponse.unparseable "Unexpected end of JSON input")
        = Except.error "Unexpected end of JSON input" ∧
    extractTransactions (CapResponse.parsed (Json.obj
        [("transactions", Json.arr [])]))
        = Except.ok (Json.arr []) :=
  ⟨extractTransactions_error_behaviour.2.1 "Unexpected end of JSON input",
   extractTransactions_error_behaviour.2.2.2.2
     [("transactions", Json.arr [])] [] rfl⟩

/-- C6: `clean` — the sanitizer `generateCSV` applies to the description and
category cells of each data row (`rowFields`) — leaves no tab, newline or
carriage-return character in its output, even for adversarial input; in
particular the description `"Rent\tPayment\n"` serializes as `"Rent Payment"`. -/
theorem clean_sanitizes_fields :
    (∀ (s : String), ∀ c ∈ (clean s).toList,
        c ≠ '\t' ∧ c ≠ '\n' ∧ c ≠ '\r') ∧
    (∀ t : Transaction,
        (rowFields t)[1]? = some (clean t.description).toList ∧
        (rowFields t)[2]? = some (clean t.category).toList) ∧
    clean "Rent\tPayment\n" = "Rent Payment" := by
  refine ⟨?_, fun t => ⟨rfl, rfl⟩, rfl⟩
  intro s c hc
  have h := clean_no_tnr s c hc
  simp [isTNR] at h
  exact ⟨h.1.1, h.1.2, h.2⟩

/-- C6 witness: the concrete sanitization scenario, applied through the
theorem. -/
theorem clean_sanitizes_fields_witness :
    ('R' ≠ '\t' ∧ 'R' ≠ '\n' ∧ 'R' ≠ '\r') ∧
    clean "Rent\tPayment\n" = "Rent Payment" :=
  ⟨clean_sanitizes_fields.1 "Rent\tPayment\n" 'R' (by decide),
   clean_sanitizes_fields.2.2⟩

/-- C7 counterexample: two files with the same (name, size) pair submitted in
one batch are both added — the duplicate check consults only the previously
selected files — so the submission set holds the pair twice, not once. -/
theorem handleFiles_same_batch_duplicate_cex :
    ¬ (((handleFiles false []
          [⟨"statement.pdf", 1024, "application/pdf"⟩,
           ⟨"statement.pdf", 1024, "application/pdf"⟩]).filter
        (fun x => x.name == "statement.pdf" && x.size == 1024)).length = 1) := by
  decide

/-- C7 amended: deduplication holds across add-events only: a batch file whose
(name, size) pair already occurs among the previously selected files is
silently dropped, leaving the entries with that pair exactly as they were;
duplicates within a single batch are not checked against each other. -/
theorem handleFiles_dedup_against_prior
    (sel batch : List JsFile) (nm : String) (sz : Nat)
    (h : ∃ g ∈ sel, g.name = nm ∧ g.size = sz) :
    ((handleFiles false sel batch).filter
        (fun x => x.name == nm && x.size == sz)).length
      = (sel.filter (fun x => x.name == nm && x.size == sz)).length := by
  obtain ⟨g, hg, hgn, hgs⟩ := h
  have hunfold : handleFiles false sel batch
      = sel ++ batch.filter (fun file =>
          validTypes.contains file.type && !(isDuplicate sel file)) := by
    simp [handleFiles]
  rw [hunfold, List.filter_append, List.length_append]
  have hnew : (batch.filter (fun file =>
      validTypes.contains file.type && !(isDuplicate sel file))).filter
        (fun x => x.name == nm && x.size == sz) = [] := by
    rw [List.filter_eq_nil_iff]
    intro f hf hmatch
    have hfpass : (validTypes.contains f.type && !(isDuplicate sel f)) = true :=
      (List.mem_filter.mp hf).2
    rw [Bool.and_eq_true] at hfpass hmatch
    have hnd : sel.any (fun x => x.name == f.name && x.size == f.size) = false := by
      simpa [isDuplicate] using hfpass.2
    have hforall := List.any_eq_false.mp hnd g hg
    obtain ⟨hn, hs⟩ := hmatch
    have hfn : f.name = nm := beq_iff_eq.mp hn
    have hfs : f.size = sz := beq_iff_eq.mp hs
    apply hforall
    rw [Bool.and_eq_true]
    exact ⟨beq_iff_eq.mpr (hgn.trans hfn.symm), beq_iff_eq.mpr (hgs.trans hfs.symm)⟩
  rw [hnew]
  simp

/-- C7 amended witness: a cross-batch duplicate is dropped, leaving one entry. -/
theorem handleFiles_dedup_against_prior_witness :
    ((handleFiles false [⟨"statement.pdf", 1024, "application/pdf"⟩]
        [⟨"statement.pdf", 1024, "image/png"⟩]).filter
      (fun x => x.name == "statement.pdf" && x.size == 1024)).length
    = ([(⟨"statement.pdf", 1024, "application/pdf"⟩ : JsFile)].filter
      (fun x => x.name == "statement.pdf" && x.size == 1024)).length :=
  handleFiles_dedup_against_prior
    [⟨"statement.pdf", 1024, "application/pdf"⟩]
    [⟨"statement.pdf", 1024, "image/png"⟩]
    "statement.pdf" 1024
    ⟨⟨"statement.pdf", 1024, "application/pdf"⟩, by decide, rfl, rfl⟩

/-- C8: `generateCSV` renders the amount as its canonical decimal string:
every character is a digit, a minus sign or a dot (no currency symbol, no
thousands separator), the sign is preserved (no minus for non-negative
amounts, a single leading minus for negative ones); on the spec's two-file
scenario the serialized text is exactly the expected block with `2500` and
`-4.5`. -/
theorem generateCSV_amount_rendering :
    (∀ (q : ℚ), ∀ c ∈ (jsNumToString q).toList,
        c.isDigit = true ∨ c = '-' ∨ c = '.') ∧
    (∀ q : ℚ, 0 ≤ q → '-' ∉ (jsNumToString q).toList) ∧
    (∀ q : ℚ, q < 0 → jsNumToString q = "-" ++ jsNumToString (-q)) ∧
    generateCSV
        [⟨"2024-01-10", "Employer Inc", "Salary", (2500 : ℚ)⟩,
         ⟨"2024-03-05", "Coffee Shop", "Dining", mkRat (-45) 10⟩]
      = "Date\tDescription\tCategory\tAmount\n2024-01-10\tEmployer Inc\tSalary\t2500\n2024-03-05\tCoffee Shop\tDining\t-4.5" := by
  refine ⟨?_, ?_, ?_, rfl⟩
  · intro q c hc
    exact jsNumChars_chars q c hc
  · intro q hq hmem
    have hq' : ¬ q < 0 := not_lt.mpr hq
    have hmem' : '-' ∈ jsNumCharsNonneg q := by
      have heq : (jsNumToString q).toList = jsNumChars q := rfl
      rw [heq] at hmem
      simpa [jsNumChars, hq'] using hmem
    rcases jsNumCharsNonneg_chars q '-' hmem' with h | h
    · exact absurd h (by decide)
    · exact absurd h (by decide)
  · intro q hq
    have hq' : ¬ (-q) < 0 := not_lt.mpr (le_of_lt (neg_pos.mpr hq))
    have h1 : jsNumChars q = '-' :: jsNumCharsNonneg (-q) := by
      simp [jsNumChars, hq]
    have h2 : jsNumChars (-q) = jsNumCharsNonneg (-q) := by
      simp [jsNumChars, hq']
    show String.mk (jsNumChars q) = "-" ++ String.mk (jsNumChars (-q))
    rw [h1, h2]
    rfl

/-- C8 witness: the general conjuncts applied at the scenario's amounts. -/
theorem generateCSV_amount_rendering_witness :
    ('-'.isDigit = true ∨ '-' = '-' ∨ '-' = '.') ∧
    '-' ∉ (jsNumToString (2500 : ℚ)).toList ∧
    jsNumToString (mkRat (-45) 10) = "-" ++ jsNumToString (-(mkRat (-45) 10)) :=
  ⟨generateCSV_amount_rendering.1 (mkRat (-45) 10) '-' (by decide),
   generateCSV_amount_rendering.2.1 2500 (by decide),
   generateCSV_amount_rendering.2.2.1 (mkRat (-45) 10) (by decide)⟩

/-- C5 counterexample: the date field is passed through unsanitized, so a
transaction whose date contains a newline breaks the row structure: one
transaction yields three newline-separated rows, not `N + 1 = 2`. -/
theorem generateCSV_malformed_date_cex :
    ¬ ((splitOnChar '\n'
          (generateCSV [⟨"2024\n01-10", "Rent", "Bills", (1 : ℚ)⟩]).toList).length
        = [(⟨"2024\n01-10", "Rent", "Bills", (1 : ℚ)⟩ : Transaction)].length + 1) := by
  decide

/-- C5 amended: for every non-empty sequence of N transactions whose date
fields contain no tab and no newline (description and category are sanitized
by `clean`, and the amount rendering is delimiter-free, but the date is
emitted verbatim), the `generateCSV` output split on newline has exactly
N + 1 rows — one header followed by N data rows — and each data row has
exactly 4 tab-separated fields. -/
theorem generateCSV_shape
    (ts : List Transaction) (hne : ts ≠ [])
    (hdate : ∀ t ∈ ts, ∀ c ∈ t.date.toList, c ≠ '\t' ∧ c ≠ '\n') :
    (splitOnChar '\n' (generateCSV ts).toList).length = ts.length + 1 ∧
    ∀ row ∈ (splitOnChar '\n' (generateCSV ts).toList).drop 1,
      (splitOnChar '\t' row).length = 4 := by
  have hsplit : splitOnChar '\n' (generateCSV ts).toList
      = intercalateChar '\t' (csvHeaders.map String.toList)
          :: ts.map fun t => intercalateChar '\t' (rowFields t) := by
    rw [generateCSV_toList ts hne]
    refine splitOnChar_intercalate '\n' _ (by simp) ?_
    intro r hr
    rcases List.mem_cons.mp hr with hr | hr
    · subst hr; exact header_newline_free
    · rcases List.mem_map.mp hr with ⟨t, ht, rfl⟩
      exact row_newline_free t (hdate t ht)
  constructor
  · rw [hsplit]; simp
  · intro row hrow
    rw [hsplit] at hrow
    simp only [List.drop_succ_cons, List.drop_zero] at hrow
    rcases List.mem_map.mp hrow with ⟨t, ht, rfl⟩
    have hrowsplit : splitOnChar '\t' (intercalateChar '\t' (rowFields t))
        = rowFields t := by
      refine splitOnChar_intercalate '\t' _ (by simp [rowFields]) ?_
      intro f hf c hc
      exact (rowFields_sep_free t (hdate t ht) f hf c hc).1
    rw [hrowsplit]
    rfl

/-- C5 amended witness: a concrete well-formed transaction gives 2 rows and a
4-field data row. -/
theorem generateCSV_shape_witness :
    (splitOnChar '\n'
        (generateCSV
          [⟨"2024-01-10", "Employer Inc", "Salary", (2500 : ℚ)⟩]).toList).length
      = [(⟨"2024-01-10", "Employer Inc", "Salary", (2500 : ℚ)⟩ : Transaction)].length
          + 1 :=
  (generateCSV_shape
    [⟨"2024-01-10", "Employer Inc", "Salary", (2500 : ℚ)⟩]
    (by decide) (by decide)).1
